import Mathlib

/-!
BMv2 mid-end (backends/bmv2/midend.cpp)

A shallow embedding of the BMv2 mid-end pass pipeline:

* the enum representation policy EnumOn32Bits (convert, enumSize);
* the three pass lists built by setup_for_P4_14, setup_for_P4_16 and the
  MidEnd constructor, kept as data (class of each pass and the arguments its
  constructor receives, in source order);
* the two VisitFunctor lambdas (entry-point check, toplevel store);
* the pipeline engine that runs such a list.
-/

namespace BMV2

/-! ## Source positions and the enum policy -/

/-- Result of Util::InputSources::getSourceLine: the file a line of the
preprocessed input came from, and the line inside that file. -/
structure SourceFileLine where
  fileName : String
  sourceLine : Nat
deriving DecidableEq, Repr

/-- Source information of an IR node, as far as EnumOn32Bits::convert looks at
it: srcInfo.isValid() and srcInfo.getStart().getLineNumber(). -/
structure SourceInfo where
  isValid : Bool
  startLineNumber : Nat
deriving DecidableEq, Repr

/-- IR::Type_Enum: a name, the member names and the source information. -/
structure Type_Enum where
  name : String
  members : List String
  srcInfo : SourceInfo
deriving DecidableEq, Repr

/-- The process-wide registry Util::InputSources::instance, seen through its
one operation used here. -/
structure InputSources where
  getSourceLine : Nat → SourceFileLine

/-- Modelled from the spec: cstring::endsWith is not part of this file; the
spec says the standard-library file is "matched by file-name suffix", so the
test is that the second string is a suffix of the first. -/
def endsWith (s suffix : String) : Bool :=
  suffix.data.isSuffixOf s.data

namespace EnumOn32Bits

/-- EnumOn32Bits::convert (midend.cpp lines 70-80). The registry and the
file name P4V1::V1Model::instance.file.name are explicit parameters. -/
def convert (sources : InputSources) (v1modelFile : String) (type : Type_Enum) : Bool :=
  if type.srcInfo.isValid then
    let line := type.srcInfo.startLineNumber
    let sfl := sources.getSourceLine line
    let sourceFile := sfl.fileName
    if endsWith sourceFile v1modelFile then
      -- Don't convert any of the standard enums
      false
    else
      true
  else
    true

/-- EnumOn32Bits::enumSize (midend.cpp lines 81-82); unsigned is 32 bits wide. -/
def enumSize (_members : Nat) : Nat :=
  32 % 2 ^ 32

end EnumOn32Bits

/-! ## Passes as data -/

/-- Classes of the passes instantiated in midend.cpp. -/
inductive PassClass
  | TypeChecking
  | Evaluator
  | EvaluatorPass
  | DiscoverInlining
  | InlineDriver
  | RemoveAllUnusedDeclarations
  | DiscoverActionsInlining
  | InlineActionsDriver
  | SimplifyParsers
  | ConvertEnums
  | ResetHeaders
  | UniqueNames
  | MoveDeclarations
  | MoveInitializers
  | SimplifyExpressions
  | RemoveReturns
  | MoveConstructors
  | ClearTypeMap
  | Inline
  | InlineActions
  | LocalizeAllActions
  | UniqueParameters
  | SimplifyControlFlow
  | RemoveParameters
  | SimplifyKey
  | ConstantFolding
  | StrengthReduction
  | LocalCopyPropagation
  | SynthesizeActions
  | MoveActionsToTables
  | RemoveLeftSlices
  | LowerExpressions
deriving DecidableEq, Repr

/-- The three local variables named evaluator, one per function of the file:
setup_for_P4_14 (line 50), setup_for_P4_16 (line 89), MidEnd::MidEnd (line 143). -/
inductive EvaluatorVar
  | p4_14
  | p4_16
  | bmv2
deriving DecidableEq, Repr

/-- Constructor arguments that occur in the pass lists. -/
inductive Arg
  | refMap
  | typeMap
  | isv1 (b : Bool)
  | controlsToInline
  | actionsToInline
  | evaluator (v : EvaluatorVar)
  | newSimpleControlsInliner
  | newSimpleActionsInliner
  | newEnumOn32Bits
  | newNonLeftValue
deriving DecidableEq, Repr

/-- One element of the pass vector. -/
inductive Step
  /-- An object created in place: new Cls(args). -/
  | pass (cls : PassClass) (args : List Arg)
  /-- The object held by a local variable evaluator, created as new Cls(args). -/
  | evaluator (v : EvaluatorVar) (cls : PassClass) (args : List Arg)
  /-- VisitFunctor of lines 105-110, capturing an evaluator. -/
  | checkMain (captured : EvaluatorVar)
  /-- VisitFunctor of line 152, capturing this and an evaluator. -/
  | storeToplevel (captured : EvaluatorVar)
deriving DecidableEq, Repr

/-- CompilerOptions, reduced to the one accessor read here. -/
structure CompilerOptions where
  isv1 : Bool
deriving DecidableEq, Repr

/-- Modelled from the spec: PassManager::addPasses is not part of this file;
the step list is "ordered, append-only". -/
def addPasses (passes new : List Step) : List Step :=
  passes ++ new

open PassClass Arg in
/-- MidEnd::setup_for_P4_14 (lines 48-67), acting on the pass vector. -/
def setup_for_P4_14 (_options : CompilerOptions) (passes : List Step) : List Step :=
  let isv1 := true
  let evaluator := Step.evaluator .p4_14 Evaluator [refMap, typeMap]
  addPasses passes [
    .pass TypeChecking [refMap, typeMap, .isv1 isv1],
    evaluator,
    .pass DiscoverInlining [controlsToInline, refMap, typeMap, .evaluator .p4_14],
    .pass InlineDriver [controlsToInline, newSimpleControlsInliner, .isv1 isv1],
    .pass RemoveAllUnusedDeclarations [refMap, .isv1 isv1],
    .pass TypeChecking [refMap, typeMap, .isv1 isv1],
    .pass DiscoverActionsInlining [actionsToInline, refMap, typeMap],
    .pass InlineActionsDriver [actionsToInline, newSimpleActionsInliner, .isv1 isv1],
    .pass RemoveAllUnusedDeclarations [refMap, .isv1 isv1]
  ]

open PassClass Arg in
/-- MidEnd::setup_for_P4_16 (lines 86-129), acting on the pass vector. -/
def setup_for_P4_16 (options : CompilerOptions) (passes : List Step) : List Step :=
  let isv1 := options.isv1
  let evaluator := Step.evaluator .p4_16 EvaluatorPass [refMap, typeMap, .isv1 isv1]
  addPasses passes [
    .pass SimplifyParsers [refMap, .isv1 isv1],
    .pass ConvertEnums [refMap, typeMap, .isv1 isv1, newEnumOn32Bits],
    .pass ResetHeaders [refMap, typeMap, .isv1 isv1],
    .pass UniqueNames [refMap, .isv1 isv1],
    .pass MoveDeclarations [],
    .pass MoveInitializers [],
    .pass SimplifyExpressions [refMap, typeMap, .isv1 isv1],
    .pass RemoveReturns [refMap, .isv1 isv1],
    .pass MoveConstructors [refMap, .isv1 isv1],
    .pass RemoveAllUnusedDeclarations [refMap, .isv1 isv1],
    .pass ClearTypeMap [typeMap],
    evaluator,
    .checkMain .p4_16,
    .pass Inline [refMap, typeMap, .evaluator .p4_16, .isv1 isv1],
    .pass InlineActions [refMap, typeMap, .isv1 isv1],
    .pass LocalizeAllActions [refMap, .isv1 isv1],
    .pass UniqueParameters [refMap, .isv1 isv1],
    .pass ClearTypeMap [typeMap],
    .pass SimplifyControlFlow [refMap, typeMap, .isv1 isv1],
    .pass RemoveParameters [refMap, typeMap, .isv1 isv1],
    .pass ClearTypeMap [typeMap],
    .pass SimplifyKey [refMap, typeMap, .isv1 isv1, newNonLeftValue],
    .pass ConstantFolding [refMap, typeMap, .isv1 isv1],
    .pass StrengthReduction [],
    .pass LocalCopyPropagation [refMap, typeMap, .isv1 isv1],
    .pass MoveDeclarations [],
    .pass SimplifyControlFlow [refMap, typeMap, .isv1 isv1],
    .pass SynthesizeActions [refMap, typeMap, .isv1 isv1],
    .pass MoveActionsToTables [refMap, typeMap, .isv1 isv1]
  ]

open PassClass Arg in
/-- The second addPasses call of MidEnd::MidEnd (lines 142-153): the
BMv2-specific passes. -/
def bmv2Passes (isv1 : Bool) : List Step :=
  let evaluator := Step.evaluator .bmv2 EvaluatorPass [refMap, typeMap, .isv1 isv1]
  [
    .pass SimplifyControlFlow [refMap, typeMap, .isv1 isv1],
    .pass TypeChecking [refMap, typeMap, .isv1 isv1],
    .pass RemoveLeftSlices [typeMap],
    .pass TypeChecking [refMap, typeMap, .isv1 isv1],
    .pass LowerExpressions [typeMap],
    .pass ConstantFolding [refMap, typeMap, .isv1 isv1],
    evaluator,
    .storeToplevel .bmv2
  ]

/-- MidEnd::MidEnd (lines 132-154): the pass vector after construction. -/
def MidEnd (options : CompilerOptions) : List Step :=
  let isv1 := options.isv1
  let passes : List Step := []
  let passes :=
    if isv1 then
      setup_for_P4_14 options passes
    else
      setup_for_P4_16 options passes
  addPasses passes (bmv2Passes isv1)

/-! ## Reading the pass list -/

/-- Constructor arguments of a step; the two functors take none. -/
def Step.args : Step → List Arg
  | .pass _ args => args
  | .evaluator _ _ args => args
  | .checkMain _ => []
  | .storeToplevel _ => []

/-- Evaluator captured by a functor step. -/
def Step.captured : Step → Option EvaluatorVar
  | .checkMain v => some v
  | .storeToplevel v => some v
  | _ => none

/-- Class of the object, for steps that are pass objects. -/
def Step.cls : Step → Option PassClass
  | .pass c _ => some c
  | .evaluator _ c _ => some c
  | _ => none

/-- The step is an object of the given class. -/
def Step.isClass (c : PassClass) (s : Step) : Bool :=
  s.cls == some c

/-- The step is one of the evaluator variables. -/
def Step.isEvaluator : Step → Bool
  | .evaluator _ _ _ => true
  | _ => false

/-- The step is the entry-point check, the only functor that returns a node
pointer and so the only step whose code can return nullptr. -/
def Step.isCheckMain : Step → Bool
  | .checkMain _ => true
  | _ => false

/-- The step is the functor that assigns MidEnd::toplevel. -/
def Step.isStoreToplevel : Step → Bool
  | .storeToplevel _ => true
  | _ => false

/-- The step was handed the given argument. -/
def Step.given (a : Arg) (s : Step) : Bool :=
  s.args.contains a

/-- The constructor received some isv1 flag. -/
def Step.givenIsv1 (s : Step) : Bool :=
  s.args.any fun a => match a with
    | .isv1 _ => true
    | _ => false

/-- The step received everything a TypeChecking object is built from
(the reference map, the type map and the isv1 flag), so it can rebuild the
type map itself. -/
def Step.canTypeCheck (s : Step) : Bool :=
  s.given .refMap && s.given .typeMap && s.givenIsv1

/-- The step was handed the type map to read, without the means to rebuild
it: given the type map, not able to type-check, and not the ClearTypeMap
invalidation itself. -/
def Step.readsTypeMapOnly (s : Step) : Bool :=
  s.given .typeMap && !s.canTypeCheck && !s.isClass .ClearTypeMap

/-- Backward scan from a step over the steps before it, nearest first:
succeeds on reaching a TypeChecking step, passes over evaluator steps (which
read the tree without rewriting it), and fails on anything else
(a ClearTypeMap or any other pass) or on running out of steps. -/
def rebuiltBefore : List Step → Bool
  | [] => false
  | s :: rest =>
    if s.isClass .TypeChecking then true
    else if s.isEvaluator then rebuiltBefore rest
    else false

/-- Steps strictly before position i, nearest first. -/
def before (l : List Step) (i : Nat) : List Step :=
  (l.take i).reverse

/-- Positions of the steps satisfying a test. -/
def positions (p : Step → Bool) (l : List Step) : List Nat :=
  (List.range l.length).filter fun i => match l[i]? with
    | some s => p s
    | none => false

/-! ## The two functors -/

/-- The lambda of lines 105-110, applied to the (non-null) toplevel block of
the captured evaluator and to the root: nullptr when getMain() is nullptr,
the root itself otherwise. -/
def checkMainFunctor {Node Block : Type} (getMain : Block → Option Block)
    (toplevel : Block) (root : Node) : Option Node :=
  if (getMain toplevel).isNone then
    -- nothing further to do
    none
  else
    some root

/-! ## Running the pipeline -/

/-- Bodies of the passes, which live outside this file. Ctx stands for the
state the passes share through pointers (reference map, type map, the two
inlining worklists). A pass object maps context and tree to a new context and
tree, an evaluator to a new context and a toplevel block; none is a fatal
compilation error. getMain is the accessor of a toplevel block. -/
structure Semantics (Node Block Ctx : Type) where
  apply : PassClass → List Arg → Ctx → Node → Option (Ctx × Node)
  evaluate : PassClass → List Arg → Ctx → Node → Option (Ctx × Block)
  getMain : Block → Option Block

/-- State of a run: the current root, the shared context, the toplevel block
held by each evaluator variable (none is nullptr), the member
MidEnd::toplevel, and the steps executed so far, oldest first. -/
structure State (Node Block Ctx : Type) where
  root : Node
  ctx : Ctx
  toplevelOf : EvaluatorVar → Option Block
  toplevel : Option Block
  executed : List Step

/-- State before the first step: no evaluator has run, nothing is stored. -/
def State.init {Node Block Ctx : Type} (ctx : Ctx) (root : Node) : State Node Block Ctx :=
  { root := root, ctx := ctx, toplevelOf := fun _ => none, toplevel := none, executed := [] }

/-- What one step hands back to the engine. -/
inductive StepResult (Node Block Ctx : Type)
  | next (s : State Node Block Ctx)
  | stop (s : State Node Block Ctx)
  | fatal

/-- Modelled from the spec: the pass classes are declared outside this file.
Spec 3: a Transform "mutates tree/context, always continues"; spec 4.1: "any
step may signal an unrecoverable compilation error". -/
def applyPass {Node Block Ctx : Type} (sem : Semantics Node Block Ctx) (cls : PassClass)
    (args : List Arg) (s : State Node Block Ctx) : StepResult Node Block Ctx :=
  match sem.apply cls args s.ctx s.root with
  | some (c, r) => .next { s with ctx := c, root := r }
  | none => .fatal

/-- Modelled from the spec: P4::Evaluator and P4::EvaluatorPass are declared
outside this file. Spec 4.4: "evaluate(tree) -> toplevelGraph"; the tree is
not rewritten, and the block computed is what getToplevelBlock() of that
object returns from then on. -/
def applyEvaluator {Node Block Ctx : Type} (sem : Semantics Node Block Ctx) (v : EvaluatorVar)
    (cls : PassClass) (args : List Arg) (s : State Node Block Ctx) : StepResult Node Block Ctx :=
  match sem.evaluate cls args s.ctx s.root with
  | some (c, b) =>
    .next { s with ctx := c, toplevelOf := fun w => if w = v then some b else s.toplevelOf w }
  | none => .fatal

/-- The VisitFunctor of lines 105-110 as a step: it reads the toplevel block
of the captured evaluator (dereferencing a null block is fatal) and applies
the lambda to the root; a nullptr result stops the run. -/
def applyCheckMain {Node Block Ctx : Type} (sem : Semantics Node Block Ctx) (v : EvaluatorVar)
    (s : State Node Block Ctx) : StepResult Node Block Ctx :=
  match s.toplevelOf v with
  | none => .fatal
  | some toplevel =>
    match checkMainFunctor sem.getMain toplevel s.root with
    | none => .stop s
    | some r => .next { s with root := r }

/-- The VisitFunctor of line 152 as a step: MidEnd::toplevel becomes the
toplevel block of the captured evaluator; the root is passed on. -/
def applyStoreToplevel {Node Block Ctx : Type} (v : EvaluatorVar)
    (s : State Node Block Ctx) : StepResult Node Block Ctx :=
  .next { s with toplevel := s.toplevelOf v }

/-- One step applied to the state: the step is logged as executed and
dispatched on its kind. -/
def execStep {Node Block Ctx : Type} (sem : Semantics Node Block Ctx) (st : Step)
    (s : State Node Block Ctx) : StepResult Node Block Ctx :=
  let s := { s with executed := s.executed ++ [st] }
  match st with
  | .pass cls args => applyPass sem cls args s
  | .evaluator v cls args => applyEvaluator sem v cls args s
  | .checkMain v => applyCheckMain sem v s
  | .storeToplevel v => applyStoreToplevel v s

/-- Result of a whole run. -/
inductive Outcome (Node Block Ctx : Type)
  | finished (s : State Node Block Ctx)
  | stopped (s : State Node Block Ctx)
  | aborted

/-- Modelled from the spec: the engine that runs the pass vector
(PassManager) is not part of this file. Spec 4.1: "iterate steps in order;
feed each step the current tree"; a Transform's result replaces the tree; on
a Conditional Continuation that signals stop, "terminate immediately and
return the tree as of that point"; a fatal error aborts the run with no
tree. -/
def run {Node Block Ctx : Type} (sem : Semantics Node Block Ctx) :
    List Step → State Node Block Ctx → Outcome Node Block Ctx
  | [], s => .finished s
  | st :: rest, s =>
    match execStep sem st s with
    | .next s1 => run sem rest s1
    | .stop s1 => .stopped s1
    | .fatal => .aborted

/-- Tree returned by a run, when there is one. -/
def Outcome.tree {Node Block Ctx : Type} : Outcome Node Block Ctx → Option Node
  | .finished s => some s.root
  | .stopped s => some s.root
  | .aborted => none

/-! ## Small concrete instances used to exercise the definitions -/

/-- Registry in which lines 1 to 99 come from the standard library and the
rest from the user program. -/
def demoSources : InputSources :=
  { getSourceLine := fun line =>
      if line < 100 then { fileName := "/usr/share/p4c/p4include/v1model.p4", sourceLine := line }
      else { fileName := "prog.p4", sourceLine := line - 99 } }

/-- Semantics over numbers: the context counts the passes run, a pass adds one
to the root, an evaluator returns the root as its block, and a block has a
main when it is above the given bound. -/
def demoSem (bound : Nat) : Semantics Nat Nat Nat :=
  { apply := fun _ _ c n => some (c + 1, n + 1)
    evaluate := fun _ _ c n => some (c, n)
    getMain := fun b => if bound < b then some b else none }

/-- State of the demo semantics (bound 100, so no block has a main) on the
modern pipeline right after its mid-pipeline evaluator, started from root 0. -/
def demoBeforeCheck : State Nat Nat Nat :=
  match run (demoSem 100) ((MidEnd { isv1 := false }).take 12) (State.init 0 0) with
  | .finished s => s
  | _ => State.init 0 0

/-- First step after position i that was handed the type map. -/
def nextGivenTypeMap (l : List Step) (i : Nat) : Option Step :=
  (l.drop (i + 1)).find? (Step.given .typeMap)

/-- The step is an Apply step of the inlining protocol in the legacy branch. -/
def Step.isApply (s : Step) : Bool :=
  s.isClass .InlineDriver || s.isClass .InlineActionsDriver

/-! ## Theorems: the enum policy -/

/-- C1: EnumOn32Bits::convert answers false exactly when the declaration has
valid source information and the file recorded for its starting line ends with
the standard-library file name; in every other case, invalid source
information included, it answers true; the name and the members of the
declaration play no part. -/
theorem convert_false_iff_standard_library (sources : InputSources) (v1modelFile : String)
    (type : Type_Enum) :
    (EnumOn32Bits.convert sources v1modelFile type = false ↔
      (type.srcInfo.isValid = true ∧
        endsWith (sources.getSourceLine type.srcInfo.startLineNumber).fileName v1modelFile
          = true))
    ∧ (EnumOn32Bits.convert sources v1modelFile type = true ↔
      (type.srcInfo.isValid = false ∨
        endsWith (sources.getSourceLine type.srcInfo.startLineNumber).fileName v1modelFile
          = false))
    ∧ (∀ (name : String) (members : List String),
        EnumOn32Bits.convert sources v1modelFile
            { name := name, members := members, srcInfo := type.srcInfo }
          = EnumOn32Bits.convert sources v1modelFile type) := by
  refine ⟨?_, ?_, ?_⟩
  · unfold EnumOn32Bits.convert
    cases hv : type.srcInfo.isValid <;>
      cases he : endsWith (sources.getSourceLine type.srcInfo.startLineNumber).fileName
        v1modelFile <;> simp [he]
  · unfold EnumOn32Bits.convert
    cases hv : type.srcInfo.isValid <;>
      cases he : endsWith (sources.getSourceLine type.srcInfo.startLineNumber).fileName
        v1modelFile <;> simp [he]
  · intro name members
    rfl

/-- C2: EnumOn32Bits::enumSize returns 32 for every member count, so any two
calls agree. -/
theorem enumSize_eq_32 (members other : Nat) :
    EnumOn32Bits.enumSize members = 32
    ∧ EnumOn32Bits.enumSize members = EnumOn32Bits.enumSize other := by
  constructor <;> rfl

/-! ## Theorems: shape of the pass vector -/

/-- C3: in the list built by setup_for_P4_16 the evaluator variable sits at
position 12 (index 11), the entry-point functor directly after it at position
13 (index 12) and captures that same variable, there is no other such functor,
and the functor returns nullptr exactly when getMain of the toplevel block is
nullptr and the given root itself otherwise. -/
theorem checkMain_follows_evaluator (options : CompilerOptions) :
    (setup_for_P4_16 options [])[11]?
        = some (.evaluator .p4_16 .EvaluatorPass [.refMap, .typeMap, .isv1 options.isv1])
    ∧ (setup_for_P4_16 options [])[12]? = some (.checkMain .p4_16)
    ∧ positions Step.isEvaluator (setup_for_P4_16 options []) = [11]
    ∧ positions Step.isCheckMain (setup_for_P4_16 options []) = [12]
    ∧ (∀ (Node Block : Type) (getMain : Block → Option Block) (toplevel : Block) (root : Node),
        (checkMainFunctor getMain toplevel root = none ↔ getMain toplevel = none)
        ∧ (checkMainFunctor getMain toplevel root = some root ↔
            (getMain toplevel).isSome = true))
    ∧ (∀ (Node Block Ctx : Type) (sem : Semantics Node Block Ctx) (s : State Node Block Ctx)
          (c : Ctx) (b : Block),
        sem.evaluate .EvaluatorPass [.refMap, .typeMap, .isv1 options.isv1] s.ctx s.root
            = some (c, b) →
        ∃ s1 s2,
          execStep sem (.evaluator .p4_16 .EvaluatorPass
              [.refMap, .typeMap, .isv1 options.isv1]) s = .next s1
          ∧ execStep sem (.checkMain .p4_16) s1
              = (if (sem.getMain b).isNone then .stop s2 else .next s2)
          ∧ s2.root = s.root) := by
  refine ⟨?_, ?_, ?_, ?_, ?_, ?_⟩
  · rfl
  · rfl
  · rcases options with ⟨_ | _⟩ <;> decide
  · rcases options with ⟨_ | _⟩ <;> decide
  · intro Node Block getMain toplevel root
    unfold checkMainFunctor
    cases h : getMain toplevel <;> simp
  · intro Node Block Ctx sem s c b hb
    have h1 : execStep sem (.evaluator .p4_16 .EvaluatorPass
          [.refMap, .typeMap, .isv1 options.isv1]) s
        = .next { s with
            ctx := c
            toplevelOf := fun w => if w = .p4_16 then some b else s.toplevelOf w
            executed := s.executed ++ [.evaluator .p4_16 .EvaluatorPass
              [.refMap, .typeMap, .isv1 options.isv1]] } := by
      simp only [execStep, applyEvaluator, hb]
    refine ⟨_, { s with
        ctx := c
        toplevelOf := fun w => if w = .p4_16 then some b else s.toplevelOf w
        executed := s.executed ++ [.evaluator .p4_16 .EvaluatorPass
          [.refMap, .typeMap, .isv1 options.isv1]] ++ [.checkMain .p4_16] }, h1, ?_, rfl⟩
    simp only [execStep, applyCheckMain, checkMainFunctor, if_true]
    cases hm : sem.getMain b <;> simp

/-- C3 at a concrete state: demo semantics in which block 7 has no main. -/
theorem checkMain_follows_evaluator_witness :
    (demoSem 100).evaluate .EvaluatorPass [.refMap, .typeMap, .isv1 false] 0 7 = some (0, 7)
    ∧ ∃ s1 s2 : State Nat Nat Nat,
        execStep (demoSem 100) (.evaluator .p4_16 .EvaluatorPass
            [.refMap, .typeMap, .isv1 false]) (State.init 0 7) = .next s1
        ∧ execStep (demoSem 100) (.checkMain .p4_16) s1 = .stop s2
        ∧ s2.root = 7 := by
  refine ⟨rfl, ?_⟩
  obtain ⟨s1, s2, h1, h2, h3⟩ :=
    (checkMain_follows_evaluator { isv1 := false }).2.2.2.2.2 Nat Nat Nat (demoSem 100)
      (State.init 0 7) 0 7 rfl
  exact ⟨s1, s2, h1, h2, h3⟩

/-- C5: the constructed vector is the sub-sequence of the one dialect selected
by isv1 followed by the BMv2 passes; the legacy sub-sequence has 9 steps, the
modern one 29, the tail 8, in the order control-flow simplification, type
checking, left-slice removal, type checking, expression lowering, constant
folding, evaluator, store toplevel, for both values of the flag; the totals
are 17 and 37. -/
theorem MidEnd_is_branch_then_tail (options : CompilerOptions) :
    MidEnd options
        = (if options.isv1 then setup_for_P4_14 options [] else setup_for_P4_16 options [])
          ++ bmv2Passes options.isv1
    ∧ (setup_for_P4_14 options []).length = 9
    ∧ (setup_for_P4_16 options []).length = 29
    ∧ (bmv2Passes options.isv1).length = 8
    ∧ (bmv2Passes options.isv1).map Step.cls
        = [some .SimplifyControlFlow, some .TypeChecking, some .RemoveLeftSlices,
           some .TypeChecking, some .LowerExpressions, some .ConstantFolding,
           some .EvaluatorPass, none]
    ∧ (bmv2Passes options.isv1).getLast? = some (.storeToplevel .bmv2)
    ∧ (bmv2Passes true).map Step.cls = (bmv2Passes false).map Step.cls
    ∧ (MidEnd options).length = (if options.isv1 then 17 else 37) := by
  rcases options with ⟨_ | _⟩ <;> decide

/-- C7: in the legacy list DiscoverInlining (index 2) is directly followed by
InlineDriver (index 3) and DiscoverActionsInlining (index 6) by
InlineActionsDriver (index 7); each of the four occurs once; controlsToInline
is handed to the steps at indices 2 and 3 and to no other step of the
pipeline, actionsToInline to those at 6 and 7 and to no other; the controls
pair precedes the actions pair; RemoveAllUnusedDeclarations sits directly
after each pair (indices 4 and 8). The modern pipeline hands neither worklist
to any step. -/
theorem legacy_discover_apply_pairs (options : CompilerOptions) :
    positions (Step.isClass .DiscoverInlining) (setup_for_P4_14 options []) = [2]
    ∧ positions (Step.isClass .InlineDriver) (setup_for_P4_14 options []) = [3]
    ∧ positions (Step.isClass .DiscoverActionsInlining) (setup_for_P4_14 options []) = [6]
    ∧ positions (Step.isClass .InlineActionsDriver) (setup_for_P4_14 options []) = [7]
    ∧ positions (Step.isClass .RemoveAllUnusedDeclarations) (setup_for_P4_14 options [])
        = [4, 8]
    ∧ positions (Step.given .controlsToInline) (MidEnd { isv1 := true }) = [2, 3]
    ∧ positions (Step.given .actionsToInline) (MidEnd { isv1 := true }) = [6, 7]
    ∧ positions (Step.given .controlsToInline) (MidEnd { isv1 := false }) = []
    ∧ positions (Step.given .actionsToInline) (MidEnd { isv1 := false }) = []
    ∧ (MidEnd { isv1 := true }).take 9 = setup_for_P4_14 options [] := by
  rcases options with ⟨_ | _⟩ <;> decide

/-- C8, as stated, fails: in the legacy pipeline it is not the case that
every Apply step (InlineDriver, InlineActionsDriver) is directly followed by a
ClearTypeMap step. -/
theorem legacy_apply_not_followed_by_ClearTypeMap :
    ¬ (∀ (i : Nat) (s : Step), (MidEnd { isv1 := true })[i]? = some s → s.isApply = true →
        ∃ t, (MidEnd { isv1 := true })[i + 1]? = some t ∧ t.isClass .ClearTypeMap = true) := by
  intro h
  obtain ⟨t, ht, hc⟩ := h 3 _ rfl (by decide)
  have : t = .pass .RemoveAllUnusedDeclarations [.refMap, .isv1 true] := by
    have h4 : (MidEnd { isv1 := true })[3 + 1]?
        = some (.pass .RemoveAllUnusedDeclarations [.refMap, .isv1 true]) := by decide
    rw [h4] at ht
    exact (Option.some.inj ht).symm
  subst this
  exact absurd hc (by decide)

/-- C8, amended: the legacy pipeline has no ClearTypeMap step at all; its
Apply steps are at indices 3 and 7; each is directly followed by a
RemoveAllUnusedDeclarations step that is not handed the type map; the first
later step handed the type map is TypeChecking after InlineDriver, and after
InlineActionsDriver it is SimplifyControlFlow, built from the reference map,
the type map and isv1, itself directly followed by TypeChecking. -/
theorem legacy_apply_then_dead_code_then_rebuild :
    positions (Step.isClass .ClearTypeMap) (MidEnd { isv1 := true }) = []
    ∧ positions Step.isApply (MidEnd { isv1 := true }) = [3, 7]
    ∧ (MidEnd { isv1 := true })[4]?
        = some (.pass .RemoveAllUnusedDeclarations [.refMap, .isv1 true])
    ∧ (MidEnd { isv1 := true })[8]?
        = some (.pass .RemoveAllUnusedDeclarations [.refMap, .isv1 true])
    ∧ Step.given .typeMap (.pass .RemoveAllUnusedDeclarations [.refMap, .isv1 true]) = false
    ∧ nextGivenTypeMap (MidEnd { isv1 := true }) 3
        = some (.pass .TypeChecking [.refMap, .typeMap, .isv1 true])
    ∧ (MidEnd { isv1 := true })[5]?
        = some (.pass .TypeChecking [.refMap, .typeMap, .isv1 true])
    ∧ nextGivenTypeMap (MidEnd { isv1 := true }) 7
        = some (.pass .SimplifyControlFlow [.refMap, .typeMap, .isv1 true])
    ∧ Step.canTypeCheck (.pass .SimplifyControlFlow [.refMap, .typeMap, .isv1 true]) = true
    ∧ (MidEnd { isv1 := true })[9]?
        = some (.pass .SimplifyControlFlow [.refMap, .typeMap, .isv1 true])
    ∧ (MidEnd { isv1 := true })[10]?
        = some (.pass .TypeChecking [.refMap, .typeMap, .isv1 true]) := by
  decide

/-- C9: for both dialects, every step handed the type map without the means to
rebuild it is reached, scanning backwards, from a TypeChecking step with at
most evaluator steps in between (so before any ClearTypeMap and any other
pass). Those steps are the legacy evaluator, DiscoverInlining,
DiscoverActionsInlining, RemoveLeftSlices and LowerExpressions in the legacy
pipeline (indices 1, 2, 6, 11, 13) and RemoveLeftSlices and LowerExpressions
in the modern one (indices 31, 33). RemoveLeftSlices, LowerExpressions and
DiscoverActionsInlining are directly preceded by TypeChecking, DiscoverInlining
by the evaluator and that by TypeChecking. -/
theorem typeMap_readers_follow_TypeChecking (options : CompilerOptions) :
    (positions Step.readsTypeMapOnly (MidEnd options)).all
        (fun i => rebuiltBefore (before (MidEnd options) i)) = true
    ∧ positions Step.readsTypeMapOnly (MidEnd { isv1 := true }) = [1, 2, 6, 11, 13]
    ∧ positions Step.readsTypeMapOnly (MidEnd { isv1 := false }) = [31, 33]
    ∧ positions (Step.isClass .DiscoverInlining) (MidEnd { isv1 := true }) = [2]
    ∧ positions (Step.isClass .DiscoverActionsInlining) (MidEnd { isv1 := true }) = [6]
    ∧ positions (Step.isClass .RemoveLeftSlices) (MidEnd { isv1 := true }) = [11]
    ∧ positions (Step.isClass .LowerExpressions) (MidEnd { isv1 := true }) = [13]
    ∧ positions (Step.isClass .RemoveLeftSlices) (MidEnd { isv1 := false }) = [31]
    ∧ positions (Step.isClass .LowerExpressions) (MidEnd { isv1 := false }) = [33]
    ∧ (before (MidEnd { isv1 := true }) 2).take 2
        = [.evaluator .p4_14 .Evaluator [.refMap, .typeMap],
           .pass .TypeChecking [.refMap, .typeMap, .isv1 true]]
    ∧ (before (MidEnd { isv1 := true }) 6).head?
        = some (.pass .TypeChecking [.refMap, .typeMap, .isv1 true])
    ∧ (before (MidEnd options) ((MidEnd options).length - 6)).head?
        = some (.pass .TypeChecking [.refMap, .typeMap, .isv1 options.isv1])
    ∧ (before (MidEnd options) ((MidEnd options).length - 4)).head?
        = some (.pass .TypeChecking [.refMap, .typeMap, .isv1 options.isv1])
    ∧ (MidEnd options)[(MidEnd options).length - 6]? = some (.pass .RemoveLeftSlices [.typeMap])
    ∧ (MidEnd options)[(MidEnd options).length - 4]? = some (.pass .LowerExpressions [.typeMap])
    := by
  rcases options with ⟨_ | _⟩ <;> decide

/-! ## Lemmas about runs -/

theorem execStep_next_executed {Node Block Ctx : Type} (sem : Semantics Node Block Ctx) (st : Step)
    (s s1 : State Node Block Ctx) (h : execStep sem st s = .next s1) :
    s1.executed = s.executed ++ [st] := by
  unfold execStep applyPass applyEvaluator applyCheckMain applyStoreToplevel at h
  cases st with
  | pass cls args =>
    simp only at h
    split at h <;> simp at h
    subst h; rfl
  | evaluator v cls args =>
    simp only at h
    split at h <;> simp at h
    subst h; rfl
  | checkMain v =>
    simp only at h
    split at h
    · simp at h
    · split at h <;> simp at h
      subst h; rfl
  | storeToplevel v =>
    simp only [StepResult.next.injEq] at h
    subst h; rfl

theorem execStep_next_toplevel {Node Block Ctx : Type} (sem : Semantics Node Block Ctx) (st : Step)
    (s s1 : State Node Block Ctx) (hst : st.isStoreToplevel = false)
    (h : execStep sem st s = .next s1) :
    s1.toplevel = s.toplevel := by
  unfold execStep applyPass applyEvaluator applyCheckMain applyStoreToplevel at h
  cases st with
  | pass cls args =>
    simp only at h
    split at h <;> simp at h
    subst h; rfl
  | evaluator v cls args =>
    simp only at h
    split at h <;> simp at h
    subst h; rfl
  | checkMain v =>
    simp only at h
    split at h
    · simp at h
    · split at h <;> simp at h
      subst h; rfl
  | storeToplevel v => simp [Step.isStoreToplevel] at hst

theorem execStep_not_stop {Node Block Ctx : Type} (sem : Semantics Node Block Ctx) (st : Step)
    (s s1 : State Node Block Ctx) (hst : st.isCheckMain = false) :
    execStep sem st s ≠ .stop s1 := by
  unfold execStep applyPass applyEvaluator applyCheckMain applyStoreToplevel
  cases st with
  | pass cls args =>
    simp only
    split <;> simp
  | evaluator v cls args =>
    simp only
    split <;> simp
  | checkMain v => simp [Step.isCheckMain] at hst
  | storeToplevel v => simp

theorem execStep_getMain {Node Block Ctx : Type} (sem : Semantics Node Block Ctx)
    (getMain : Block → Option Block) (st : Step) (s : State Node Block Ctx)
    (hst : st.isCheckMain = false) :
    execStep { sem with getMain := getMain } st s = execStep sem st s := by
  cases st with
  | pass cls args => rfl
  | evaluator v cls args => rfl
  | checkMain v => simp [Step.isCheckMain] at hst
  | storeToplevel v => rfl

theorem run_append {Node Block Ctx : Type} (sem : Semantics Node Block Ctx) (l1 l2 : List Step)
    (s : State Node Block Ctx) :
    run sem (l1 ++ l2) s =
      match run sem l1 s with
      | .finished s1 => run sem l2 s1
      | .stopped s1 => .stopped s1
      | .aborted => .aborted := by
  induction l1 generalizing s with
  | nil => rfl
  | cons st rest ih =>
    simp only [List.cons_append, run]
    cases execStep sem st s with
    | next s1 => exact ih s1
    | stop s1 => rfl
    | fatal => rfl

theorem run_finished_executed {Node Block Ctx : Type} (sem : Semantics Node Block Ctx) (l : List Step)
    (s s1 : State Node Block Ctx) (h : run sem l s = .finished s1) :
    s1.executed = s.executed ++ l := by
  induction l generalizing s with
  | nil =>
    simp only [run, Outcome.finished.injEq] at h
    subst h; simp
  | cons st rest ih =>
    simp only [run] at h
    cases hs : execStep sem st s with
    | next s2 =>
      rw [hs] at h
      rw [ih s2 h, execStep_next_executed sem st s s2 hs]
      simp
    | stop s2 => rw [hs] at h; simp at h
    | fatal => rw [hs] at h; simp at h

theorem run_finished_toplevel {Node Block Ctx : Type} (sem : Semantics Node Block Ctx) (l : List Step)
    (s s1 : State Node Block Ctx) (hl : l.any Step.isStoreToplevel = false)
    (h : run sem l s = .finished s1) :
    s1.toplevel = s.toplevel := by
  induction l generalizing s with
  | nil =>
    simp only [run, Outcome.finished.injEq] at h
    subst h; rfl
  | cons st rest ih =>
    simp only [List.any_cons, Bool.or_eq_false_iff] at hl
    simp only [run] at h
    cases hs : execStep sem st s with
    | next s2 =>
      rw [hs] at h
      rw [ih s2 hl.2 h, execStep_next_toplevel sem st s s2 hl.1 hs]
    | stop s2 => rw [hs] at h; simp at h
    | fatal => rw [hs] at h; simp at h

theorem run_not_stopped {Node Block Ctx : Type} (sem : Semantics Node Block Ctx) (l : List Step)
    (s s1 : State Node Block Ctx) (hl : l.any Step.isCheckMain = false) :
    run sem l s ≠ .stopped s1 := by
  induction l generalizing s with
  | nil => simp [run]
  | cons st rest ih =>
    simp only [List.any_cons, Bool.or_eq_false_iff] at hl
    simp only [run]
    cases hs : execStep sem st s with
    | next s2 => exact ih s2 hl.2
    | stop s2 => exact absurd hs (execStep_not_stop sem st s s2 hl.1)
    | fatal => simp

theorem run_getMain {Node Block Ctx : Type} (sem : Semantics Node Block Ctx)
    (getMain : Block → Option Block) (l : List Step) (s : State Node Block Ctx)
    (hl : l.any Step.isCheckMain = false) :
    run { sem with getMain := getMain } l s = run sem l s := by
  induction l generalizing s with
  | nil => rfl
  | cons st rest ih =>
    simp only [List.any_cons, Bool.or_eq_false_iff] at hl
    simp only [run, execStep_getMain sem getMain st s hl.1]
    cases execStep sem st s with
    | next s2 => exact ih s2 hl.2
    | stop s2 => rfl
    | fatal => rfl

/-- Running the last two steps of the pipeline: the evaluator of line 143 and
the functor of line 152. -/
theorem run_final_evaluator_store {Node Block Ctx : Type} (sem : Semantics Node Block Ctx)
    (isv1 : Bool) (s s2 : State Node Block Ctx)
    (h : run sem [.evaluator .bmv2 .EvaluatorPass [.refMap, .typeMap, .isv1 isv1],
        .storeToplevel .bmv2] s = .finished s2) :
    ∃ b, sem.evaluate .EvaluatorPass [.refMap, .typeMap, .isv1 isv1] s.ctx s.root
          = some (s2.ctx, b)
      ∧ s2.toplevel = some b ∧ s2.root = s.root := by
  simp only [run, execStep, applyEvaluator, applyStoreToplevel] at h
  cases hb : sem.evaluate .EvaluatorPass [.refMap, .typeMap, .isv1 isv1] s.ctx s.root with
  | none => rw [hb] at h; simp at h
  | some cb =>
    obtain ⟨c, b⟩ := cb
    rw [hb] at h
    simp only [Outcome.finished.injEq] at h
    subst h
    exact ⟨b, rfl, by simp, rfl⟩

/-! ## Theorems: runs of the pipeline -/

/-- C4: in a run of the modern pipeline, when the first twelve steps (up to and
including the mid-pipeline evaluator) have run and getMain of that evaluator's
toplevel block is nullptr, the run stops at the entry-point functor: the
executed steps are exactly the first 13, none of the 16 later steps of the
modern branch nor of the 8 tail steps runs, MidEnd::toplevel is left as it
was, and the returned tree is the root the functor was given. -/
theorem no_main_stops_modern_run {Node Block Ctx : Type} (sem : Semantics Node Block Ctx)
    (options : CompilerOptions) (s0 s12 : State Node Block Ctx) (toplevel : Block)
    (hdialect : options.isv1 = false)
    (hpre : run sem ((MidEnd options).take 12) s0 = .finished s12)
    (htop : s12.toplevelOf .p4_16 = some toplevel)
    (hmain : sem.getMain toplevel = none) :
    ∃ s13, run sem (MidEnd options) s0 = .stopped s13
      ∧ (run sem (MidEnd options) s0).tree = some s12.root
      ∧ s13.root = s12.root
      ∧ s13.executed = s0.executed ++ (MidEnd options).take 13
      ∧ (MidEnd options)[12]? = some (.checkMain .p4_16)
      ∧ s13.toplevel = s0.toplevel
      ∧ (MidEnd options).drop 13
          = (setup_for_P4_16 options []).drop 13 ++ bmv2Passes options.isv1
      ∧ ((setup_for_P4_16 options []).drop 13).length = 16
      ∧ (bmv2Passes options.isv1).length = 8
      ∧ ((MidEnd options).drop 13).getLast? = some (.storeToplevel .bmv2) := by
  obtain ⟨b⟩ := options
  simp only at hdialect
  subst hdialect
  have hsplit : MidEnd { isv1 := false }
      = (MidEnd { isv1 := false }).take 12
        ++ (.checkMain .p4_16 :: (MidEnd { isv1 := false }).drop 13) := by decide
  have hexec := run_finished_executed sem _ s0 s12 hpre
  have htl := run_finished_toplevel sem _ s0 s12 (by decide) hpre
  have hrun : run sem (MidEnd { isv1 := false }) s0
      = .stopped { s12 with executed := s12.executed ++ [.checkMain .p4_16] } := by
    rw [hsplit, run_append, hpre]
    simp only [run, execStep, applyCheckMain, htop, checkMainFunctor, hmain, Option.isNone_none,
      if_true]
  refine ⟨_, hrun, ?_, rfl, ?_, by decide, htl, by decide, by decide, by decide, by decide⟩
  · rw [hrun]; rfl
  · simp only [hexec, List.append_assoc]
    congr 1

/-- C4 at a concrete run: the demo semantics with no main, root 0. -/
theorem no_main_stops_modern_run_witness :
    (demoSem 100).getMain 11 = none
    ∧ (run (demoSem 100) (MidEnd { isv1 := false }) (State.init 0 0)).tree = some 11 := by
  obtain ⟨_, _, h, _⟩ := no_main_stops_modern_run (demoSem 100) { isv1 := false }
    (State.init 0 0) demoBeforeCheck 11 rfl rfl rfl rfl
  exact ⟨rfl, h⟩

/-- C6: for both dialects the last two steps are the evaluator of line 143
and the functor storing its toplevel block; all left-slice removal, expression
lowering and constant folding steps come before that evaluator; the storing
functor is the only one of its kind and captures that evaluator, not a
mid-pipeline one; executing the two steps in turn leaves the root alone and
puts the block computed by that evaluator into MidEnd::toplevel, whatever the
mid-pipeline evaluators hold. -/
theorem final_evaluator_feeds_toplevel (options : CompilerOptions) :
    (MidEnd options).reverse.take 2
        = [.storeToplevel .bmv2,
           .evaluator .bmv2 .EvaluatorPass [.refMap, .typeMap, .isv1 options.isv1]]
    ∧ positions Step.isStoreToplevel (MidEnd options) = [(MidEnd options).length - 1]
    ∧ positions Step.isEvaluator (MidEnd options)
        = [if options.isv1 then 1 else 11, (MidEnd options).length - 2]
    ∧ (positions (fun s => s.isClass .RemoveLeftSlices || s.isClass .LowerExpressions
          || s.isClass .ConstantFolding) (MidEnd options)).all
        (fun i => decide (i < (MidEnd options).length - 2)) = true
    ∧ positions (Step.isClass .RemoveLeftSlices) (MidEnd options)
        = [(MidEnd options).length - 6]
    ∧ positions (Step.isClass .LowerExpressions) (MidEnd options)
        = [(MidEnd options).length - 4]
    ∧ ((MidEnd options)[(MidEnd options).length - 3]?).map Step.cls
        = some (some .ConstantFolding)
    ∧ positions (fun s => s.captured == some .p4_14 || s.captured == some .p4_16)
        (MidEnd options) = (if options.isv1 then [] else [12])
    ∧ (∀ (Node Block Ctx : Type) (sem : Semantics Node Block Ctx) (s : State Node Block Ctx)
          (c : Ctx) (b : Block),
        sem.evaluate .EvaluatorPass [.refMap, .typeMap, .isv1 options.isv1] s.ctx s.root
            = some (c, b) →
        ∃ s1 s2,
          execStep sem (.evaluator .bmv2 .EvaluatorPass
              [.refMap, .typeMap, .isv1 options.isv1]) s = .next s1
          ∧ execStep sem (.storeToplevel .bmv2) s1 = .next s2
          ∧ s2.toplevel = some b ∧ s2.root = s.root
          ∧ s2.toplevelOf .p4_14 = s.toplevelOf .p4_14
          ∧ s2.toplevelOf .p4_16 = s.toplevelOf .p4_16) := by
  refine ⟨?_, ?_, ?_, ?_, ?_, ?_, ?_, ?_, ?_⟩
  · rcases options with ⟨_ | _⟩ <;> decide
  · rcases options with ⟨_ | _⟩ <;> decide
  · rcases options with ⟨_ | _⟩ <;> decide
  · rcases options with ⟨_ | _⟩ <;> decide
  · rcases options with ⟨_ | _⟩ <;> decide
  · rcases options with ⟨_ | _⟩ <;> decide
  · rcases options with ⟨_ | _⟩ <;> decide
  · rcases options with ⟨_ | _⟩ <;> decide
  · intro Node Block Ctx sem s c b hb
    have h1 : execStep sem (.evaluator .bmv2 .EvaluatorPass
          [.refMap, .typeMap, .isv1 options.isv1]) s
        = .next { s with
            ctx := c
            toplevelOf := fun w => if w = .bmv2 then some b else s.toplevelOf w
            executed := s.executed ++ [.evaluator .bmv2 .EvaluatorPass
              [.refMap, .typeMap, .isv1 options.isv1]] } := by
      simp only [execStep, applyEvaluator, hb]
    exact ⟨_, _, h1, rfl, by simp, rfl, by simp, by simp⟩

/-- C6 at a concrete state: legacy flag, demo semantics, root 7, with the
mid-pipeline evaluators holding block 3. -/
theorem final_evaluator_feeds_toplevel_witness :
    (demoSem 0).evaluate .EvaluatorPass [.refMap, .typeMap, .isv1 true] 0 7 = some (0, 7)
    ∧ ∃ s1 s2 : State Nat Nat Nat,
        execStep (demoSem 0) (.evaluator .bmv2 .EvaluatorPass [.refMap, .typeMap, .isv1 true])
            { (State.init 0 7) with toplevelOf := fun _ => some 3 } = .next s1
        ∧ execStep (demoSem 0) (.storeToplevel .bmv2) s1 = .next s2
        ∧ s2.toplevel = some 7 := by
  refine ⟨rfl, ?_⟩
  obtain ⟨s1, s2, h1, h2, h3, _⟩ :=
    (final_evaluator_feeds_toplevel { isv1 := true }).2.2.2.2.2.2.2.2 Nat Nat Nat (demoSem 0)
      { (State.init 0 7) with toplevelOf := fun _ => some 3 } 0 7 rfl
  exact ⟨s1, s2, h1, h2, h3⟩

/-- C10: the legacy pipeline has no entry-point functor (the only one is at
position 13, index 12, of the modern list); its mid-pipeline evaluator is
directly followed by DiscoverInlining; a legacy run never stops early and does
not depend on getMain at all; unless it is aborted by a fatal error it executes
all 17 steps in order and ends with MidEnd::toplevel holding the block the
final evaluator computed from the final tree. -/
theorem legacy_run_never_short_circuits {Node Block Ctx : Type} (sem : Semantics Node Block Ctx)
    (options : CompilerOptions) (s0 : State Node Block Ctx) (hdialect : options.isv1 = true) :
    positions Step.isCheckMain (MidEnd options) = []
    ∧ positions Step.isCheckMain (MidEnd { isv1 := false }) = [12]
    ∧ (MidEnd options)[1]? = some (.evaluator .p4_14 .Evaluator [.refMap, .typeMap])
    ∧ (MidEnd options)[2]?
        = some (.pass .DiscoverInlining
            [.controlsToInline, .refMap, .typeMap, .evaluator .p4_14])
    ∧ (∀ s, run sem (MidEnd options) s0 ≠ .stopped s)
    ∧ (∀ getMain : Block → Option Block,
        run { sem with getMain := getMain } (MidEnd options) s0 = run sem (MidEnd options) s0)
    ∧ (run sem (MidEnd options) s0 = .aborted
        ∨ ∃ s b c, run sem (MidEnd options) s0 = .finished s
            ∧ s.executed = s0.executed ++ MidEnd options
            ∧ (MidEnd options).length = 17
            ∧ (MidEnd options).getLast? = some (.storeToplevel .bmv2)
            ∧ s.toplevel = some b
            ∧ sem.evaluate .EvaluatorPass [.refMap, .typeMap, .isv1 true] c s.root
                = some (s.ctx, b)) := by
  obtain ⟨b⟩ := options
  simp only at hdialect
  subst hdialect
  have hno : (MidEnd { isv1 := true }).any Step.isCheckMain = false := by decide
  refine ⟨by decide, by decide, by decide, by decide, ?_, ?_, ?_⟩
  · intro s
    exact run_not_stopped sem _ s0 s hno
  · intro getMain
    exact run_getMain sem getMain _ s0 hno
  · cases hr : run sem (MidEnd { isv1 := true }) s0 with
    | aborted => exact Or.inl rfl
    | stopped s => exact absurd hr (run_not_stopped sem _ s0 s hno)
    | finished s =>
      right
      have hsplit : MidEnd { isv1 := true }
          = (MidEnd { isv1 := true }).take 15
            ++ [.evaluator .bmv2 .EvaluatorPass [.refMap, .typeMap, .isv1 true],
                .storeToplevel .bmv2] := by decide
      have hr2 := hr
      rw [hsplit, run_append] at hr2
      cases hp : run sem ((MidEnd { isv1 := true }).take 15) s0 with
      | aborted => rw [hp] at hr2; simp at hr2
      | stopped s1 => rw [hp] at hr2; simp at hr2
      | finished s15 =>
        rw [hp] at hr2
        simp only at hr2
        obtain ⟨blk, hb, ht, hroot⟩ := run_final_evaluator_store sem true s15 s hr2
        refine ⟨s, blk, s15.ctx, rfl, run_finished_executed sem _ s0 s hr, by decide,
          by decide, ht, ?_⟩
        rw [hroot]; exact hb

/-- C10 at a concrete run: legacy flag, demo semantics, root 0. -/
theorem legacy_run_never_short_circuits_witness :
    (CompilerOptions.mk true).isv1 = true
    ∧ run { demoSem 100 with getMain := fun _ => none } (MidEnd { isv1 := true }) (State.init 0 0)
        = run (demoSem 100) (MidEnd { isv1 := true }) (State.init 0 0) :=
  ⟨rfl, (legacy_run_never_short_circuits (demoSem 100) { isv1 := true } (State.init 0 0) rfl).2.2.2.2.2.1
    (fun _ => none)⟩

end BMV2
